import Mathlib

/-!
A verification development for the Doddle Wordle-solver core.

The definitions below are a shallow embedding of the Python sources under
`src/doddle` (words.py, scoring.py, histogram.py, guess.py, solver.py,
simul_solver.py, engine.py, game.py).  Words are embedded as uppercase
strings, numpy integer arrays as `List Int`, dictionaries keyed by score as
association lists, and fallible code as `Except`.  The theorems at the end
of the file settle the claims of the specification against this embedding.
-/

namespace Doddle

/-- Uppercase a string character by character (`Word` enforces
capitalisation of its `value`). -/
def upperStr (s : String) : String := ⟨s.data.map Char.toUpper⟩

/-- Embeds `doddle.words.Word`: an uppercase token.  The integer-vector
view is derived from the letters by `Word.vector`.  Equality is equality
of the underlying values, as in `Word.__eq__`. -/
structure Word where
  value : String
deriving DecidableEq, Repr

instance : Inhabited Word := ⟨⟨""⟩⟩

/-- `Word.__init__` uppercases the incoming string. -/
def Word.ofString (s : String) : Word := ⟨upperStr s⟩

/-- `Word.to_vector`: `ord(c) - ord('A')` for each character, the int8
letter vector cached on the word. -/
def Word.vector (w : Word) : List Int :=
  w.value.data.map (fun c => (c.toNat : Int) - 65)

/-- `Word.__lt__` compares the underlying strings; Python string comparison
is code-point lexicographic, i.e. the lexicographic order on the character
lists. -/
def Word.ltB (a b : Word) : Bool := decide (a.value.data < b.value.data)

/-- The propositional form of `Word.__le__`, used to state that a word
series is sorted. -/
def Word.le (a b : Word) : Prop := a.value.data ≤ b.value.data

instance : DecidableRel Word.le :=
  fun a b => (inferInstance : Decidable (a.value.data ≤ b.value.data))

/-- `Scorer.__init__`: `powers = 3 ** arange(size - 1, -1, -1)`. -/
def powersOf3 (size : Nat) : List Int :=
  ((List.range size).reverse).map (fun i => (3 : Int) ^ i)

/-- Embeds `_score_word_jit` (scoring.py lines 75-108) exactly as written:
the `powers` argument is received but never used; `value` is the number of
exact matches times ten, and `approx` adds one for every partial match
found by the two-pass rule over the unmatched positions. -/
def scoreWordJit (solutionArray guessArray powers : List Int) : Int :=
  let ms := List.zipWith (fun a b => a == b) solutionArray guessArray
  let value : Int := 10 * (ms.countP id : Nat)
  let approx : Int :=
    ((List.range ms.length).map (fun i =>
      if ms.getD i false then (0 : Int)
      else
        let letter := guessArray.getD i 0
        let numTimesAlreadyObserved :=
          (List.range i).countP (fun j =>
            !(ms.getD j false) && (letter == guessArray.getD j 0))
        let numTimesInSolution :=
          (List.range ms.length).countP (fun j =>
            !(ms.getD j false) && (letter == solutionArray.getD j 0))
        if numTimesAlreadyObserved < numTimesInSolution then 1 else 0)).sum
  value + approx

/-- `Scorer.score_word`: score a solution against a guess through the jit
kernel, passing the precomputed powers. -/
def Scorer.scoreWord (size : Nat) (solution guess : Word) : Int :=
  scoreWordJit solution.vector guess.vector (powersOf3 size)

/-- `Scorer.perfect_score`: `(3 ** size) - 1`. -/
def Scorer.perfectScore (size : Nat) : Int := 3 ^ size - 1

/-- `Scorer.is_perfect_score`. -/
def Scorer.isPerfectScore (size : Nat) (score : Int) : Bool :=
  score == Scorer.perfectScore size

/-- `from_ternary` (scoring.py): fold the reversed digit characters,
adding `digit * 3 ** i`. -/
def fromTernary (ternary : String) : Int :=
  ((ternary.data.reverse.map (fun c => ((c.toNat : Int) - 48))).enum.map
    (fun p => p.2 * (3 : Int) ^ p.1)).sum

/-- Digit characters of `n` in base 3, most significant first; empty for
zero (helper for `np.base_repr`).  The first argument is structural fuel;
`n` itself is always enough since `n / 3` shrinks at least as fast. -/
def natDigits3Aux : Nat → Nat → List Char
  | 0, _ => []
  | fuel + 1, n =>
    if n = 0 then [] else natDigits3Aux fuel (n / 3) ++ [Char.ofNat (48 + n % 3)]

/-- Digit characters of `n` in base 3, most significant first. -/
def natDigits3 (n : Nat) : List Char := natDigits3Aux n n

/-- `np.base_repr(score, base=3)`: the base-3 digit string, `"0"` for zero. -/
def baseRepr3 (n : Nat) : List Char :=
  if n = 0 then ['0'] else natDigits3 n

/-- `str.zfill`: left-pad with `'0'` up to the requested width. -/
def zfill (s : List Char) (size : Nat) : List Char :=
  List.replicate (size - s.length) '0' ++ s

/-- `to_ternary` (scoring.py): `np.base_repr(score, base=3).zfill(size)`. -/
def toTernary (score : Int) (size : Nat) : String :=
  ⟨zfill (baseRepr3 score.toNat) size⟩

/-- Failure modes surfaced by the embedded code.
`failedToFindASolution` is the repository's own error kind: engine.py
imports it from `doddle/exceptions.py`, a module that is not among the
sources (modelled from the spec: "FailedToFindASolution - Engine did not
converge inside MAX_ITERS; fatal for that run, reported to caller").  The
remaining constructors stand for the runtime errors Python itself raises:
a missing dictionary key, a missing attribute, a call with the wrong
number of arguments, indexing an empty array and `min` of an empty
sequence. -/
inductive PyError where
  | failedToFindASolution
  | keyError
  | attributeError
  | typeError
  | indexError
  | valueError
deriving DecidableEq, Repr

/-- Embeds `HistogramBuilder.get_solns_by_score` (histogram.py lines
54-75): score every remaining solution against the guess, take the unique
scores (`np.unique` returns them sorted ascending), and bucket the
solutions by their score, preserving their order.  The resulting
association list plays the role of the returned dictionary. -/
def getSolnsByScore (size : Nat) (potentialSolns : List Word) (guess : Word) :
    List (Int × List Word) :=
  let scores := potentialSolns.map (fun soln => Scorer.scoreWord size soln guess)
  let uniqueScores := (scores.dedup).insertionSort (· ≤ ·)
  uniqueScores.map (fun s =>
    (s, potentialSolns.filter (fun soln => Scorer.scoreWord size soln guess == s)))

/-- Python dictionary access `d[score]`: `none` models the `KeyError`. -/
def dictLookup (d : List (Int × List Word)) (score : Int) : Option (List Word) :=
  (d.find? (fun p => p.1 == score)).map (fun p => p.2)

/-- Embeds `to_histogram` (histogram.py lines 128-134): a dense vector of
length `max(keys) + 1` holding the bucket sizes (scores are never
negative, so seeding the maximum with 0 is exact). -/
def toHistogram (solnsByScore : List (Int × List Word)) : List Int :=
  let len := ((solnsByScore.map (fun p => p.1)).foldl max 0) + 1
  (List.range len.toNat).map (fun i =>
    ((solnsByScore.find? (fun p => p.1 == (i : Int))).map
      (fun p => (p.2.length : Int))).getD 0)

/-- Embeds `_populate_histogram` (histogram.py lines 137-162): the dense
size-`3^L` vector whose entry at a packed score counts the candidate
solutions attaining that score against the guess. -/
def populateHistogram (size : Nat) (potentialSolns : List Word) (guess : Word) :
    List Int :=
  (List.range (3 ^ size)).map (fun k =>
    ((potentialSolns.countP
      (fun soln => Scorer.scoreWord size soln guess == (k : Int))) : Int))

/-- Embeds `HistogramBuilder.stream` (histogram.py lines 77-113): for each
word of the guess universe, build its histogram against the candidate set
and hand `(word, is_potential_soln, histogram)` to the guess factory.  The
potential-solution flag is `hist[-1] > 0`. -/
def streamGuesses {G : Type} (size : Nat) (build : Word → Bool → List Int → G)
    (allWords potentialSolns : List Word) : List G :=
  allWords.map (fun w =>
    let hist := populateHistogram size potentialSolns w
    let isPotentialSoln := decide (hist.getLastD 0 > 0)
    build w isPotentialSoln hist)

/-- Embeds `doddle.guess.MinimaxGuess` (guess.py lines 42-51). -/
structure MinimaxGuess where
  word : Word
  isPotentialSoln : Bool
  numberOfBuckets : Int
  sizeOfLargestBucket : Int
deriving DecidableEq, Repr

/-- `MinimaxGuess.improves_upon` (guess.py lines 53-71): smaller largest
bucket; then prefer a potential solution; then more buckets; then the
lexicographically smaller word. -/
def MinimaxGuess.improvesUpon (self other : MinimaxGuess) : Bool :=
  if self.sizeOfLargestBucket ≠ other.sizeOfLargestBucket then
    decide (self.sizeOfLargestBucket < other.sizeOfLargestBucket)
  else if self.isPotentialSoln ≠ other.isPotentialSoln then
    self.isPotentialSoln
  else if self.numberOfBuckets ≠ other.numberOfBuckets then
    decide (self.numberOfBuckets > other.numberOfBuckets)
  else
    Word.ltB self.word other.word

/-- `MinimaxGuess.perfectly_partitions`. -/
def MinimaxGuess.perfectlyPartitions (g : MinimaxGuess) : Bool :=
  g.sizeOfLargestBucket == 1

/-- `MinimaxGuess.combine`: keep the word and flag, adopt the follow-up
guess's bucket statistics. -/
def MinimaxGuess.combine (self other : MinimaxGuess) : MinimaxGuess :=
  ⟨self.word, self.isPotentialSoln, other.numberOfBuckets, other.sizeOfLargestBucket⟩

/-- `MinimaxGuess.from_histogram`: bucket count is the number of non-zero
histogram entries, largest bucket is the histogram maximum (entries are
non-negative counts, so a 0 seed is exact). -/
def MinimaxGuess.fromHistogram (word : Word) (isPotentialSoln : Bool)
    (histogram : List Int) : MinimaxGuess :=
  ⟨word, isPotentialSoln, (histogram.countP (fun v => v ≠ 0) : Nat),
    histogram.foldl max 0⟩

/-- Python's builtin `min` over a stream of guesses: keep the first
element and replace it whenever a later element compares strictly smaller
under `__lt__`; `none` models the `ValueError` on an empty stream. -/
def pyMin {G : Type} (lt : G → G → Bool) : List G → Option G
  | [] => none
  | x :: xs => some (xs.foldl (fun best a => if lt a best then a else best) x)

/-- Embeds `Solver.get_best_guess` (solver.py lines 19-39), shared by the
depth-1 minimax and entropy solvers.  `build` is the subclass's
`_build_guess` factory and `lt` the guess order `__lt__`.  With at most
two candidates the first candidate is returned, flagged as a potential
solution, with the histogram of its own partition (`none` models the
`IndexError` Python raises there on an empty candidate array); otherwise
the minimum of the streamed guesses is returned. -/
def Solver.getBestGuess {G : Type} (size : Nat) (build : Word → Bool → List Int → G)
    (lt : G → G → Bool) (allWords potentialSolns : List Word) : Option G :=
  if potentialSolns.length ≤ 2 then
    match potentialSolns with
    | [] => none
    | g :: rest =>
      let solnsByScore := getSolnsByScore size (g :: rest) g
      let histogram := toHistogram solnsByScore
      some (build g true histogram)
  else
    pyMin lt (streamGuesses size build allWords potentialSolns)

/-- `MinimaxSolver.get_best_guess`: the shared base method instantiated
with the minimax guess factory and order. -/
def MinimaxSolver.getBestGuess (size : Nat) (allWords potentialSolns : List Word) :
    Option MinimaxGuess :=
  Solver.getBestGuess size MinimaxGuess.fromHistogram MinimaxGuess.improvesUpon
    allWords potentialSolns

/-- Embeds `doddle.boards.ScoreboardRow`. -/
structure ScoreboardRow where
  n : Nat
  soln : Word
  guess : Word
  score : String
  numLeft : Nat
deriving DecidableEq, Repr

/-- Embeds `doddle.game.Game`: the remaining candidates, the solution, the
scoreboard rows, the solved flag, the word length and the user-supplied
opening guesses. -/
structure Game where
  potentialSolns : List Word
  soln : Word
  scoreboard : List ScoreboardRow
  isSolved : Bool
  wordLength : Nat
  openingGuesses : List Word
deriving DecidableEq, Repr

/-- `Game.__init__`: empty scoreboard, unsolved, word length taken from
the candidate series (`0` when the series is empty, as in
`WordSeries.word_length`). -/
def Game.init (potentialSolns : List Word) (soln : Word)
    (openingGuesses : List Word) : Game :=
  ⟨potentialSolns, soln, [], false,
    ((potentialSolns.head?.map (fun w => w.value.length)).getD 0), openingGuesses⟩

/-- `Game.update` (game.py lines 66-82): replace the candidates, append a
scoreboard row carrying the ternary rendering of the score, and flag the
game solved when every rendered digit is `'2'`. -/
def Game.update (game : Game) (n : Nat) (guess : Word) (score : Int)
    (potentialSolns : List Word) : Game :=
  let ternaryScore := toTernary score game.wordLength
  { game with
    potentialSolns := potentialSolns
    scoreboard := game.scoreboard ++
      [⟨n, game.soln, guess, ternaryScore, potentialSolns.length⟩]
    isSolved := ternaryScore.data.all (fun c => c == '2') }

/-- `Game.rounds`: the last scoreboard row's `n`, or `0` with no rows. -/
def Game.rounds (game : Game) : Nat :=
  ((game.scoreboard.getLast?).map (fun row => row.n)).getD 0

/-- `Game.user_guess`: the nth opening guess, `None` past the end. -/
def Game.userGuess (game : Game) (n : Nat) : Option Word :=
  game.openingGuesses.get? n

/-- Python's `word or alt` used by the engine for guess selection: a
`Word` is falsy exactly when it has length zero. -/
def wordOr (w : Option Word) (alt : Word) : Word :=
  match w with
  | some v => if v.value.length = 0 then alt else v
  | none => alt

/-- Embeds the `Engine` dataclass (engine.py).  The dictionary is the pair
of word lists, the scorer is fixed by `size`, and the solver is abstracted
by its seed and by `solver.get_best_guess(...).word`.  The best-guess
field is `Except`-valued because the solver call can itself raise:
factory.py wires Engines with `MinimaxSolver`, `EntropySolver`,
`DeepMinimaxSolver` or `DeepEntropySolver`, and the deep entropy solver's
perfect-partition branch raises `TypeError` (it constructs the four-field
`EntropyGuess` with three arguments at solver.py line 180). -/
structure Engine where
  allWords : List Word
  commonWords : List Word
  size : Nat
  seed : Word
  solverBestGuess : List Word → List Word → Except PyError Word

/-- `game.user_guess(i) or self.solver.get_best_guess(all_words,
available_answers).word` (engine.py line 62): the solver is consulted
when the user guess is missing or falsy (a zero-length word), and
whatever the solver raises propagates. -/
def Engine.nextGuess (e : Engine) (game : Game) (i : Nat)
    (availableAnswers : List Word) : Except PyError Word :=
  match game.userGuess i with
  | some w =>
    if w.value.length = 0 then e.solverBestGuess e.allWords availableAnswers
    else .ok w
  | none => e.solverBestGuess e.allWords availableAnswers

/-- The body of the `for i in range(1, MAX_ITERS + 1)` loop of
`Engine.run` (engine.py lines 51-62), written with the remaining
iteration count as structural fuel: partition the candidates by the
guess, score the guess against the solution, step into the bucket at
that score (a missing bucket is Python's `KeyError`), update the game,
stop when solved, and otherwise pick the next guess from the user list
or the solver, propagating any error the solver raises. -/
def Engine.runFrom (e : Engine) (game : Game) (availableAnswers : List Word)
    (guess : Word) (i : Nat) : Nat → Except PyError Game
  | 0 => .error .failedToFindASolution
  | fuel + 1 =>
    let histogram := getSolnsByScore e.size availableAnswers guess
    let score := Scorer.scoreWord e.size game.soln guess
    match dictLookup histogram score with
    | none => .error .keyError
    | some newAvailable =>
      let game1 := game.update i guess score newAvailable
      if game1.isSolved then .ok game1
      else
        match e.nextGuess game1 i newAvailable with
        | .error err => .error err
        | .ok nextG => e.runFrom game1 newAvailable nextG (i + 1) fuel

/-- Embeds `Engine.run` (engine.py lines 33-64): start from all common
words, open with the first user guess or the solver's seed, and run at
most `MAX_ITERS = 20` rounds. -/
def Engine.run (e : Engine) (solution : Word) (userGuesses : List Word) :
    Except PyError Game :=
  let availableAnswers := e.commonWords
  let game := Game.init availableAnswers solution userGuesses
  let guess := wordOr (game.userGuess 0) e.seed
  e.runFrom game availableAnswers guess 1 20

/-- Embeds `doddle.guess.MinimaxSimulGuess` (guess.py lines 220-232). -/
structure MinimaxSimulGuess where
  word : Word
  isPotentialSoln : Bool
  pctLeft : ℚ
  min : Int
  sum : Int
  max : Int
  numBuckets : Int
deriving DecidableEq, Repr

/-- `math.isclose(a, b, abs_tol=1e-9)` with the default relative
tolerance `1e-9`, in exact rational arithmetic. -/
def isclose (a b : ℚ) : Bool :=
  decide (|a - b| ≤ max ((1 / 1000000000) * max |a| |b|) (1 / 1000000000))

/-- Embeds `doddle.guess.EntropyGuess` (guess.py lines 140-149): the word,
the potential-solution flag, the Shannon-entropy value and the
perfect-partition flag.  The entropy is modelled as an exact rational
standing for the float64 value the code stores; the factory
`EntropyGuess.from_histogram` computes that value with `np.log2` and is
not evaluated in this development, but the comparison logic below is
exact arithmetic on whatever values are stored. -/
structure EntropyGuess where
  word : Word
  isPotentialSoln : Bool
  entropy : ℚ
  isPerfectPartition : Bool
deriving DecidableEq, Repr

/-- `EntropyGuess.improves_upon` (guess.py lines 151-167): greater entropy
wins when the two values are not within `math.isclose` tolerance
(`abs_tol=1e-9` and the default `rel_tol=1e-9`); within tolerance the
tie-break prefers a potential solution, then the lexicographically
smaller word. -/
def EntropyGuess.improvesUpon (self other : EntropyGuess) : Bool :=
  if !(isclose self.entropy other.entropy) then decide (self.entropy > other.entropy)
  else if self.isPotentialSoln ≠ other.isPotentialSoln then self.isPotentialSoln
  else Word.ltB self.word other.word

/-- `MinimaxSimulGuess.improves_upon` (guess.py lines 234-262). -/
def MinimaxSimulGuess.improvesUpon (self other : MinimaxSimulGuess) : Bool :=
  if !(isclose self.pctLeft other.pctLeft) then decide (self.pctLeft < other.pctLeft)
  else if self.min ≠ other.min then decide (self.min < other.min)
  else if self.sum ≠ other.sum then decide (self.sum < other.sum)
  else if self.max ≠ other.max then decide (self.max < other.max)
  else if self.isPotentialSoln ≠ other.isPotentialSoln then self.isPotentialSoln
  else if self.numBuckets ≠ other.numBuckets then decide (self.numBuckets > other.numBuckets)
  else Word.ltB self.word other.word

/-- Embeds `MinimaxSimulSolver.to_simul_guess` (simul_solver.py lines
73-87) exactly as written: its eligibility line reads
`guess.is_common_word`, but `MinimaxGuess` (guess.py line 46) declares
only `word`, `is_potential_soln`, `number_of_buckets` and
`size_of_largest_bucket` in its `__slots__`, so this attribute access
raises `AttributeError` on every call before any field of the composite
guess can be assembled. -/
def MinimaxSimulSolver.toSimulGuess (games : List Game)
    (guessTuple : List MinimaxGuess) : Except PyError MinimaxSimulGuess :=
  .error .attributeError

/-- `zip(*streams)`: transpose the per-board guess streams into per-word
tuples, stopping at the shortest stream; `zip()` of no streams is empty. -/
def zipStreams {α : Type} : List (List α) → List (List α)
  | [] => []
  | [s] => s.map (fun x => [x])
  | s :: rest => List.zipWith (fun x t => x :: t) s (zipStreams rest)

/-- Embeds `SimulSolver.get_best_guess` (simul_solver.py lines 21-34) for
the minimax variant: scan the games for an unsolved board with at most
one candidate and, if found, build the singleton guess and combine it via
`to_simul_guess`; otherwise stream per-board minimax guesses over the
shared universe, combine each per-word tuple, and take the minimum. -/
def MinimaxSimulSolver.getBestGuess (size : Nat) (allWords : List Word)
    (games : List Game) : Except PyError MinimaxSimulGuess :=
  match games.find? (fun game => !(game.isSolved || game.potentialSolns.length > 1)) with
  | some game =>
    match game.potentialSolns.head? with
    | none => .error .indexError
    | some word =>
      let solnsByScore := getSolnsByScore size game.potentialSolns word
      let histogram := toHistogram solnsByScore
      let singleGuess := MinimaxGuess.fromHistogram word true histogram
      MinimaxSimulSolver.toSimulGuess [game] [singleGuess]
  | none =>
    let unsolvedGames := games.filter (fun game => !game.isSolved)
    let streams := unsolvedGames.map (fun game =>
      streamGuesses size MinimaxGuess.fromHistogram allWords game.potentialSolns)
    match (zipStreams streams).mapM
        (fun t => MinimaxSimulSolver.toSimulGuess unsolvedGames t) with
    | .error err => .error err
    | .ok simulGuesses =>
      match pyMin MinimaxSimulGuess.improvesUpon simulGuesses with
      | some g => .ok g
      | none => .error .valueError

/-- A `WordSeries` slice: the sorted words together with the parallel
array of their global indices in the parent series (words.py lines
90-108). -/
structure WordSeries where
  words : List Word
  index : List Nat
deriving DecidableEq, Repr

/-- Embeds `ScoreMatrix` (histogram.py lines 199-255).  The storage is the
dense rows-by-columns grid (rows are guesses over `all_words`, columns are
potential solutions over `common_words`), together with the per-column
computed bitmap and the fully-initialised flag. -/
structure ScoreMatrix where
  scorerSize : Nat
  allWords : List Word
  commonWords : List Word
  rows : Nat
  cols : Nat
  storage : List (List Int)
  isCalculated : List Bool
  isFullyInitialised : Bool
deriving DecidableEq, Repr

/-- `ScoreMatrix.__init__` with lazy evaluation, constructed as
`HistogramBuilder` does from the two full series (so the row and column
counts `index.max() + 1` are the series lengths): storage filled with -1,
no column computed. -/
def ScoreMatrix.init (size : Nat) (allWords commonWords : List Word) : ScoreMatrix :=
  ⟨size, allWords, commonWords, allWords.length, commonWords.length,
    List.replicate allWords.length (List.replicate commonWords.length (-1)),
    List.replicate commonWords.length false, false⟩

/-- Embeds `ScoreMatrix.precompute` (histogram.py lines 236-255).
`potential_solns or self.potential_solns` falls back to the full series
when the argument is `None` or an empty (falsy) series.  When the matrix
is fully initialised, or every requested column is already computed, the
call returns immediately; otherwise every requested column `c` is filled
with `Scorer.score_word(word_at_column_c, all_words[r])` for every row
`r`, the columns are marked computed and the fully-initialised flag is
refreshed. -/
def ScoreMatrix.precompute (m : ScoreMatrix) (potentialSolns : Option WordSeries) :
    ScoreMatrix :=
  let solns : WordSeries :=
    match potentialSolns with
    | some s => if s.index.length > 0 then s else ⟨m.commonWords, List.range m.cols⟩
    | none => ⟨m.commonWords, List.range m.cols⟩
  if m.isFullyInitialised || solns.index.all (fun c => m.isCalculated.getD c false) then m
  else
    let pairs := solns.words.zip solns.index
    let storage := (List.range m.rows).map (fun r =>
      (List.range m.cols).map (fun c =>
        match pairs.find? (fun p => p.2 == c) with
        | some p => Scorer.scoreWord m.scorerSize p.1 (m.allWords.getD r default)
        | none => (m.storage.getD r []).getD c (-1)))
    let isCalculated := (List.range m.cols).map (fun c =>
      if c ∈ solns.index then true else m.isCalculated.getD c false)
    { m with
      storage := storage
      isCalculated := isCalculated
      isFullyInitialised := isCalculated.all id }

/-- The `while lo < hi` loop of Python's `bisect_left`, with the width of
the search window as structural fuel (`hi - lo` is always enough, since
the window shrinks every iteration). -/
def bisectLeftAux (a : List Word) (x : Word) : Nat → Nat → Nat → Nat
  | 0, lo, _ => lo
  | fuel + 1, lo, hi =>
    if lo < hi then
      let mid := (lo + hi) / 2
      if Word.ltB (a.getD mid default) x then bisectLeftAux a x fuel (mid + 1) hi
      else bisectLeftAux a x fuel lo mid
    else lo

/-- Python's `bisect_left` (as called by `WordSeries.__find_index`): binary
search for the leftmost insertion point of `x` in `a[lo:hi]` under
`Word.__lt__`. -/
def bisectLeft (a : List Word) (x : Word) (lo hi : Nat) : Nat :=
  bisectLeftAux a x (hi - lo) lo hi

/-- Embeds `WordSeries.__find_index` (words.py lines 145-151): uppercase
the probe, bisect, and return the position when the word there matches,
`-1` otherwise. -/
def WordSeries.findIndex (seriesWords : List Word) (value : String) : Int :=
  let word := Word.ofString value
  let pos := bisectLeft seriesWords word 0 seriesWords.length
  if pos < seriesWords.length ∧ seriesWords.getD pos default = word then (pos : Int)
  else -1

/-- Embeds `WordSeries.__contains__`: `find_index(value) >= 0`. -/
def WordSeries.containsWord (seriesWords : List Word) (value : String) : Bool :=
  decide (WordSeries.findIndex seriesWords value ≥ 0)

/-- A simultaneous position in which the first (and only) board is
unsolved and has exactly one remaining candidate, STICK. -/
def singletonSimulGames : List Game :=
  [Game.init [Word.ofString "STICK"] (Word.ofString "STICK") []]

/-- A small guess universe for the singleton simultaneous position. -/
def singletonSimulAllWords : List Word :=
  [Word.ofString "RAISE", Word.ofString "STICK", Word.ofString "TOWER"]

/-- An engine over the C7 failing position whose solver field stands for
`DeepEntropySolver.get_best_guess` (factory.py wires this solver for
`--solver entropy --depth 2`): at a position where a top-10 entropy
guess perfectly partitions the candidates it raises `TypeError`, because
solver.py line 180 constructs the four-field `EntropyGuess` with three
arguments (see the C7 theorem for the reachability of that branch on
these candidates). -/
def deepEntropyEngine : Engine :=
  ⟨[Word.ofString "SNAKE", Word.ofString "SPACE", Word.ofString "SHAPE",
      Word.ofString "RAISE"],
    [Word.ofString "SNAKE", Word.ofString "SPACE", Word.ofString "SHAPE"], 5,
    Word.ofString "RAISE", fun x y => .error .typeError⟩

/-- C1: the scoring kernel does not produce the packed base-3 integer.
`_score_word_jit` never uses its `powers` argument and returns
`10 * greens + yellows`: SPEAR/STRIP yields 12 where the packed "20101"
is 172, GAMMA/MUMMY yields 20 where "00220" packs to 24, and ARGUE/AGREE
yields 22 where "21102" packs to 200 — contradicting `score_word`'s own
docstring, `score_word_slow`, and the repository's scorer tests. -/
theorem c1_score_word_is_not_packed_base3 :
    Scorer.scoreWord 5 (Word.ofString "SPEAR") (Word.ofString "STRIP") = 12 ∧
    fromTernary "20101" = 172 ∧
    Scorer.scoreWord 5 (Word.ofString "GAMMA") (Word.ofString "MUMMY") = 20 ∧
    fromTernary "00220" = 24 ∧
    Scorer.scoreWord 5 (Word.ofString "ARGUE") (Word.ofString "AGREE") = 22 ∧
    fromTernary "21102" = 200 := by
  decide

/-- C2: scoring a word against itself does not give the perfect score
`3^L - 1`: for L = 5 it gives 10·5 = 50 rather than 242, so
`is_perfect_score` rejects a solved game; for L = 1 the value 10 even
falls outside `[0, 3^L)`. -/
theorem c2_self_score_is_not_perfect :
    Scorer.scoreWord 5 (Word.ofString "SPEAR") (Word.ofString "SPEAR") = 50 ∧
    Scorer.perfectScore 5 = 242 ∧
    Scorer.isPerfectScore 5
      (Scorer.scoreWord 5 (Word.ofString "SPEAR") (Word.ofString "SPEAR")) = false ∧
    Scorer.scoreWord 1 (Word.ofString "A") (Word.ofString "A") = 10 ∧
    ¬ Scorer.scoreWord 1 (Word.ofString "A") (Word.ofString "A") < 3 ^ 1 := by
  decide

/-- C7: on the repository's own deep-entropy test input (candidates
SNAKE, SPACE, SHAPE with more than two candidates), the guess SHAPE
partitions the candidate set into buckets that all have size one, so
`DeepEntropySolver.get_best_guess` reaches the perfect-partition branch
at solver.py line 180 — where `EntropyGuess(word, flag, inf)` is built
with three arguments although the dataclass requires four. -/
theorem c7_perfect_partition_branch_is_reached :
    ((getSolnsByScore 5
        [Word.ofString "SNAKE", Word.ofString "SPACE", Word.ofString "SHAPE"]
        (Word.ofString "SHAPE")).all (fun p => p.2.length == 1)) = true ∧
    2 < ([Word.ofString "SNAKE", Word.ofString "SPACE", Word.ofString "SHAPE"] :
      List Word).length := by
  decide

/-- C8: with an unsolved board holding exactly one candidate, the
simultaneous minimax solver does not return that singleton as a guess:
the singleton path hands the single guess to `to_simul_guess`, whose
`guess.is_common_word` attribute access fails (`MinimaxGuess` only
declares `is_potential_soln`), so `get_best_guess` raises
`AttributeError` instead. -/
theorem c8_singleton_simul_guess_raises :
    MinimaxSimulSolver.getBestGuess 5 singletonSimulAllWords singletonSimulGames =
      .error .attributeError := by
  rfl

/-- The sort key realising the minimax order: largest bucket ascending,
then the potential-solution flag (0 when the guess is a potential
solution), then the bucket count negated (more buckets first), then the
word's character list. -/
def minimaxKey (g : MinimaxGuess) : Int ×ₗ (Nat ×ₗ (Int ×ₗ List Char)) :=
  toLex (g.sizeOfLargestBucket,
    toLex (((if g.isPotentialSoln then 0 else 1) : Nat),
      toLex (-g.numberOfBuckets, g.word.value.data)))

theorem improvesUpon_iff_key_lt (a b : MinimaxGuess) :
    a.improvesUpon b = true ↔ minimaxKey a < minimaxKey b := by
  rcases a with ⟨⟨wa⟩, fa, na, sa⟩
  rcases b with ⟨⟨wb⟩, fb, nb, sb⟩
  simp only [MinimaxGuess.improvesUpon, minimaxKey, Prod.Lex.lt_iff, Prod.mk.injEq,
    toLex_inj]
  by_cases hs : sa = sb
  · subst hs
    by_cases hf : fa = fb
    · subst hf
      by_cases hn : na = nb
      · subst hn
        simp [Word.ltB, lt_irrefl]
      · simp [hn, lt_irrefl, neg_inj]
    · cases fa <;> cases fb <;> simp_all [lt_irrefl]
  · simp [hs, decide_eq_true_iff]

theorem minimax_improves_trans {a b c : MinimaxGuess}
    (h1 : a.improvesUpon b = true) (h2 : b.improvesUpon c = true) :
    a.improvesUpon c = true := by
  rw [improvesUpon_iff_key_lt] at h1 h2 ⊢
  exact lt_trans h1 h2

theorem minimax_improves_irrefl (a : MinimaxGuess) : a.improvesUpon a = false := by
  by_contra h
  have h1 : a.improvesUpon a = true := by
    cases h2 : a.improvesUpon a
    · exact absurd h2 h
    · rfl
  rw [improvesUpon_iff_key_lt] at h1
  exact lt_irrefl _ h1

/-- C6: the minimax order is total and deterministic.  `improves_upon` is
the lexicographic cascade captured by `minimaxKey` (smaller largest
bucket, then potential-solution flag, then more buckets, then the
lexicographically smaller word), and for two guesses with distinct words
exactly one of the two improves upon the other, so a minimum under this
order is uniquely determined. -/
theorem c6_minimax_order_total_deterministic (g1 g2 : MinimaxGuess)
    (h : g1.word ≠ g2.word) :
    (g1.improvesUpon g2 = true ↔ minimaxKey g1 < minimaxKey g2) ∧
    (g1.improvesUpon g2 = true ∨ g2.improvesUpon g1 = true) ∧
    ¬ (g1.improvesUpon g2 = true ∧ g2.improvesUpon g1 = true) := by
  refine ⟨improvesUpon_iff_key_lt g1 g2, ?_, ?_⟩
  · rw [improvesUpon_iff_key_lt, improvesUpon_iff_key_lt]
    rcases lt_trichotomy (minimaxKey g1) (minimaxKey g2) with hlt | heq | hgt
    · exact Or.inl hlt
    · exfalso
      apply h
      have h1 := congrArg (fun k => (ofLex (ofLex (ofLex k).2).2).2) heq
      rcases g1 with ⟨⟨w1⟩, f1, n1, s1⟩
      rcases g2 with ⟨⟨w2⟩, f2, n2, s2⟩
      simp only [minimaxKey] at h1
      exact congrArg (fun d => Word.mk (String.mk d)) h1
    · exact Or.inr hgt
  · rintro ⟨h1, h2⟩
    rw [improvesUpon_iff_key_lt] at h1 h2
    exact lt_irrefl _ (lt_trans h1 h2)

/-- Witness for C6 at two concrete guesses with distinct words. -/
theorem c6_witness :
    (MinimaxGuess.mk (Word.ofString "SNAKE") true 4 20).word ≠
      (MinimaxGuess.mk (Word.ofString "SHARK") true 4 25).word ∧
    ((MinimaxGuess.mk (Word.ofString "SNAKE") true 4 20).improvesUpon
        (MinimaxGuess.mk (Word.ofString "SHARK") true 4 25) = true ∨
      (MinimaxGuess.mk (Word.ofString "SHARK") true 4 25).improvesUpon
        (MinimaxGuess.mk (Word.ofString "SNAKE") true 4 20) = true) ∧
    ¬ ((MinimaxGuess.mk (Word.ofString "SNAKE") true 4 20).improvesUpon
        (MinimaxGuess.mk (Word.ofString "SHARK") true 4 25) = true ∧
      (MinimaxGuess.mk (Word.ofString "SHARK") true 4 25).improvesUpon
        (MinimaxGuess.mk (Word.ofString "SNAKE") true 4 20) = true) := by
  refine ⟨by decide, ?_, ?_⟩
  · exact (c6_minimax_order_total_deterministic _ _ (by decide)).2.1
  · exact (c6_minimax_order_total_deterministic _ _ (by decide)).2.2

theorem getSolnsByScore_eq (size : Nat) (C : List Word) (g : Word) :
    getSolnsByScore size C g =
      ((C.map (fun soln => Scorer.scoreWord size soln g)).dedup.insertionSort
        (· ≤ ·)).map
        (fun s => (s, C.filter (fun soln => Scorer.scoreWord size soln g == s))) := rfl

/-- C3: `get_solns_by_score` partitions the candidate set.  The keys are
exactly the scores attained against the guess and carry no duplicates,
every bucket is non-empty and contains exactly the candidates scoring its
key, distinct buckets are disjoint, the bucket sizes sum to the number of
candidates, and every candidate lies in the bucket keyed by its own
score. -/
theorem c3_partition_by_score (size : Nat) (C : List Word) (g : Word) (hC : C ≠ []) :
    ((getSolnsByScore size C g).map (fun p => p.1)).Nodup ∧
    (∀ s : Int, s ∈ (getSolnsByScore size C g).map (fun p => p.1) ↔
      ∃ w ∈ C, Scorer.scoreWord size w g = s) ∧
    (∀ p ∈ getSolnsByScore size C g, p.2 ≠ [] ∧
      ∀ w ∈ p.2, w ∈ C ∧ Scorer.scoreWord size w g = p.1) ∧
    (getSolnsByScore size C g).Pairwise (fun p q => ∀ w, w ∈ p.2 → w ∉ q.2) ∧
    ((getSolnsByScore size C g).map (fun p => p.2.length)).sum = C.length ∧
    (∀ w ∈ C, ∃ p ∈ getSolnsByScore size C g, p.1 = Scorer.scoreWord size w g ∧ w ∈ p.2) := by
  have hperm : ((C.map (fun soln => Scorer.scoreWord size soln g)).dedup.insertionSort
      (· ≤ ·)).Perm (C.map (fun soln => Scorer.scoreWord size soln g)).dedup :=
    List.perm_insertionSort _ _
  have hnodup : ((C.map (fun soln => Scorer.scoreWord size soln g)).dedup.insertionSort
      (· ≤ ·)).Nodup :=
    hperm.nodup_iff.mpr (List.nodup_dedup _)
  have hmemkeys : ∀ s : Int,
      s ∈ (C.map (fun soln => Scorer.scoreWord size soln g)).dedup.insertionSort (· ≤ ·) ↔
        ∃ w ∈ C, Scorer.scoreWord size w g = s := by
    intro s
    rw [List.mem_insertionSort, List.mem_dedup, List.mem_map]
  have hkeymap : (getSolnsByScore size C g).map (fun p => p.1) =
      (C.map (fun soln => Scorer.scoreWord size soln g)).dedup.insertionSort (· ≤ ·) := by
    rw [getSolnsByScore_eq, List.map_map]
    exact List.map_id _
  refine ⟨?_, ?_, ?_, ?_, ?_, ?_⟩
  · rw [hkeymap]
    exact hnodup
  · intro s
    rw [hkeymap]
    exact hmemkeys s
  · intro p hp
    rw [getSolnsByScore_eq] at hp
    obtain ⟨s, hs, rfl⟩ := List.mem_map.mp hp
    constructor
    · obtain ⟨w, hwC, hfw⟩ := (hmemkeys s).mp hs
      exact List.ne_nil_of_mem (List.mem_filter.mpr ⟨hwC, beq_iff_eq.mpr hfw⟩)
    · intro w hw
      obtain ⟨hwC, hval⟩ := List.mem_filter.mp hw
      exact ⟨hwC, beq_iff_eq.mp hval⟩
  · rw [getSolnsByScore_eq, List.pairwise_map]
    refine List.Pairwise.imp ?_ hnodup
    intro a b hab w hwa hwb
    obtain ⟨-, ha⟩ := List.mem_filter.mp hwa
    obtain ⟨-, hb⟩ := List.mem_filter.mp hwb
    exact hab ((beq_iff_eq.mp ha).symm.trans (beq_iff_eq.mp hb))
  · rw [getSolnsByScore_eq, List.map_map]
    have hfn : ((fun p => p.2.length) ∘
        fun s => (s, C.filter (fun soln => Scorer.scoreWord size soln g == s))) =
        fun s => List.count s (C.map (fun soln => Scorer.scoreWord size soln g)) := by
      funext s
      simp only [Function.comp]
      rw [List.count_eq_countP, List.countP_map, ← List.countP_eq_length_filter]
      rfl
    rw [hfn, (hperm.map _).sum_eq, List.sum_map_count_dedup_eq_length, List.length_map]
  · intro w hw
    refine ⟨(Scorer.scoreWord size w g,
      C.filter (fun soln => Scorer.scoreWord size soln g == Scorer.scoreWord size w g)), ?_, rfl, ?_⟩
    · rw [getSolnsByScore_eq]
      exact List.mem_map.mpr ⟨Scorer.scoreWord size w g,
        (hmemkeys _).mpr ⟨w, hw, rfl⟩, rfl⟩
    · exact List.mem_filter.mpr ⟨hw, beq_iff_eq.mpr rfl⟩

set_option maxRecDepth 4000 in
/-- Witness for C3 at a concrete three-candidate set: the bucket sizes of
the partition by SHAPE sum to the candidate count. -/
theorem c3_witness :
    ([Word.ofString "SNAKE", Word.ofString "SPACE", Word.ofString "SHAPE"] : List Word) ≠ [] ∧
    ((getSolnsByScore 5
        [Word.ofString "SNAKE", Word.ofString "SPACE", Word.ofString "SHAPE"]
        (Word.ofString "TOWER")).map (fun p => p.2.length)).sum =
      ([Word.ofString "SNAKE", Word.ofString "SPACE", Word.ofString "SHAPE"] :
        List Word).length :=
  ⟨by decide, (c3_partition_by_score 5
    [Word.ofString "SNAKE", Word.ofString "SPACE", Word.ofString "SHAPE"]
    (Word.ofString "TOWER") (by decide)).2.2.2.2.1⟩


theorem Game.soln_update (game : Game) (n : Nat) (guess : Word) (score : Int)
    (solns : List Word) : (game.update n guess score solns).soln = game.soln := rfl

theorem Game.rounds_update (game : Game) (n : Nat) (guess : Word) (score : Int)
    (solns : List Word) : (game.update n guess score solns).rounds = n := by
  simp [Game.update, Game.rounds, List.getLast?_concat]

theorem find?_beq_self {k : Int} :
    ∀ {l : List Int}, k ∈ l → l.find? (fun s => s == k) = some k := by
  intro l h
  induction l with
  | nil => cases h
  | cons a l ih =>
    by_cases hak : a = k
    · subst hak
      rw [List.find?_cons_of_pos _ (by simp)]
    · rw [List.find?_cons_of_neg _ (by simp [hak])]
      rcases List.mem_cons.mp h with h1 | h1
      · exact absurd h1.symm hak
      · exact ih h1

theorem dictLookup_score_self (size : Nat) (C : List Word) (g s : Word) (h : s ∈ C) :
    dictLookup (getSolnsByScore size C g) (Scorer.scoreWord size s g) =
      some (C.filter (fun w =>
        Scorer.scoreWord size w g == Scorer.scoreWord size s g)) := by
  rw [dictLookup, getSolnsByScore_eq, List.find?_map]
  have hcomp : ((fun p : Int × List Word => p.1 == Scorer.scoreWord size s g) ∘
      (fun sc => (sc, C.filter (fun soln => Scorer.scoreWord size soln g == sc)))) =
      fun sc => sc == Scorer.scoreWord size s g := rfl
  rw [hcomp]
  have hmem : Scorer.scoreWord size s g ∈
      (C.map (fun soln => Scorer.scoreWord size soln g)).dedup.insertionSort (· ≤ ·) := by
    rw [List.mem_insertionSort, List.mem_dedup, List.mem_map]
    exact ⟨s, h, rfl⟩
  rw [find?_beq_self hmem]
  rfl

theorem nextGuess_error (e : Engine) (game : Game) (i : Nat) (avail : List Word)
    (err : PyError) (h : e.nextGuess game i avail = .error err) :
    e.solverBestGuess e.allWords avail = .error err := by
  rw [Engine.nextGuess] at h
  split at h
  · split at h
    · exact h
    · exact absurd h (by simp)
  · exact h

theorem runFrom_spec (e : Engine) :
    ∀ (fuel i : Nat) (game : Game) (avail : List Word) (guess : Word),
      game.soln ∈ avail → i + fuel ≤ 21 →
      (∀ g, e.runFrom game avail guess i fuel = .ok g →
        g.isSolved = true ∧ g.rounds ≤ 20) ∧
      (∀ err, e.runFrom game avail guess i fuel = .error err →
        err = PyError.failedToFindASolution ∨
        ∃ A C, e.solverBestGuess A C = .error err) := by
  intro fuel
  induction fuel with
  | zero =>
    intro i game avail guess hmem hle
    constructor
    · intro g hg
      exact absurd hg (by simp [Engine.runFrom])
    · intro err herr
      simp only [Engine.runFrom] at herr
      injection herr with h
      exact Or.inl h.symm
  | succ fuel ih =>
    intro i game avail guess hmem hle
    have hlookup := dictLookup_score_self e.size avail guess game.soln hmem
    constructor
    · intro g hg
      simp only [Engine.runFrom] at hg
      rw [hlookup] at hg
      simp only [] at hg
      by_cases hs : (game.update i guess (Scorer.scoreWord e.size game.soln guess)
          (avail.filter (fun w => Scorer.scoreWord e.size w guess ==
            Scorer.scoreWord e.size game.soln guess))).isSolved = true
      · rw [if_pos hs] at hg
        injection hg with h
        subst h
        exact ⟨hs, by rw [Game.rounds_update]; omega⟩
      · rw [if_neg hs] at hg
        cases hng : e.nextGuess (game.update i guess
            (Scorer.scoreWord e.size game.soln guess)
            (avail.filter (fun w => Scorer.scoreWord e.size w guess ==
              Scorer.scoreWord e.size game.soln guess))) i
            (avail.filter (fun w => Scorer.scoreWord e.size w guess ==
              Scorer.scoreWord e.size game.soln guess)) with
        | error err0 =>
          rw [hng] at hg
          exact absurd hg (by simp)
        | ok nextG =>
          rw [hng] at hg
          simp only [] at hg
          refine ((ih (i + 1) _ _ _ ?_ (by omega)).1 g hg)
          rw [Game.soln_update]
          exact List.mem_filter.mpr ⟨hmem, beq_iff_eq.mpr rfl⟩
    · intro err herr
      simp only [Engine.runFrom] at herr
      rw [hlookup] at herr
      simp only [] at herr
      by_cases hs : (game.update i guess (Scorer.scoreWord e.size game.soln guess)
          (avail.filter (fun w => Scorer.scoreWord e.size w guess ==
            Scorer.scoreWord e.size game.soln guess))).isSolved = true
      · rw [if_pos hs] at herr
        exact absurd herr (by simp)
      · rw [if_neg hs] at herr
        cases hng : e.nextGuess (game.update i guess
            (Scorer.scoreWord e.size game.soln guess)
            (avail.filter (fun w => Scorer.scoreWord e.size w guess ==
              Scorer.scoreWord e.size game.soln guess))) i
            (avail.filter (fun w => Scorer.scoreWord e.size w guess ==
              Scorer.scoreWord e.size game.soln guess)) with
        | error err0 =>
          rw [hng] at herr
          simp only [] at herr
          injection herr with h
          subst h
          exact Or.inr ⟨e.allWords, _, nextGuess_error e _ i _ err0 hng⟩
        | ok nextG =>
          rw [hng] at herr
          simp only [] at herr
          refine ((ih (i + 1) _ _ _ ?_ (by omega)).2 err herr)
          rw [Game.soln_update]
          exact List.mem_filter.mpr ⟨hmem, beq_iff_eq.mpr rfl⟩

/-- The dichotomy the engine loop provides on its own: when the wired
solver never raises, `Engine.run` either returns a solved game within
the 20-round cap or fails with `FailedToFindASolution`, and it never
returns an unsolved game.  The membership hypothesis is the engine's
operating condition (benchmarks iterate the common words and the loaders
merge user answers into them); it rules out the `KeyError` of a score
bucket no candidate attains.  The C5 theorem below shows the totality
hypothesis is not vacuous: the deep entropy solver raises. -/
theorem engine_run_dichotomy (e : Engine) (solution : Word)
    (userGuesses : List Word) (hmem : solution ∈ e.commonWords)
    (htotal : ∀ A C err, e.solverBestGuess A C ≠ .error err) :
    (∀ g, e.run solution userGuesses = .ok g → g.isSolved = true ∧ g.rounds ≤ 20) ∧
    (∀ err, e.run solution userGuesses = .error err →
      err = PyError.failedToFindASolution) := by
  obtain ⟨hok, herr⟩ := runFrom_spec e 20 1 (Game.init e.commonWords solution userGuesses)
    e.commonWords (wordOr ((Game.init e.commonWords solution userGuesses).userGuess 0)
      e.seed) hmem (by omega)
  have hrun : e.run solution userGuesses =
      e.runFrom (Game.init e.commonWords solution userGuesses) e.commonWords
        (wordOr ((Game.init e.commonWords solution userGuesses).userGuess 0) e.seed)
        1 20 := rfl
  constructor
  · intro g hg
    rw [hrun] at hg
    exact hok g hg
  · intro err he
    rw [hrun] at he
    rcases herr err he with h | ⟨A, C, hAC⟩
    · exact h
    · exact absurd hAC (htotal A C err)

/-- C5: `Engine.run` does not satisfy the claimed dichotomy on the code
as it stands.  With the deep entropy solver (whose perfect-partition
branch raises `TypeError`, reachable on these very candidates - see the
C7 theorem), the engine's first round leaves the game unsolved, the
solver is consulted for the next guess, and its `TypeError` propagates
out of `run`: the result is neither a solved game nor
`FailedToFindASolutionError`.  `engine_run_dichotomy` above shows the
claim holds exactly when the wired solver never raises. -/
theorem c5_run_propagates_solver_type_error :
    deepEntropyEngine.run (Word.ofString "SNAKE") [] =
      Except.error PyError.typeError ∧
    PyError.typeError ≠ PyError.failedToFindASolution := by
  constructor
  · rfl
  · decide


theorem getD_range_map {A : Type} (n : Nat) (f : Nat → A) (i : Nat) (d : A)
    (h : i < n) : (((List.range n).map f).getD i d) = f i := by
  rw [List.getD_eq_getElem?_getD, List.getElem?_map, List.getElem?_range h]
  rfl

theorem getD_replicate_false (n c : Nat) :
    (List.replicate n false).getD c false = false := by
  rw [List.getD_eq_getElem?_getD, List.getElem?_replicate]
  split <;> rfl

theorem find?_snd_self {A : Type} :
    ∀ (pairs : List (A × Nat)) (p : A × Nat), (pairs.map Prod.snd).Nodup →
      p ∈ pairs → pairs.find? (fun q => q.2 == p.2) = some p := by
  intro pairs
  induction pairs with
  | nil => intro p _ hp; cases hp
  | cons q rest ih =>
    intro p hnodup hp
    rcases List.mem_cons.mp hp with rfl | hrest
    · exact List.find?_cons_of_pos _ (by simp)
    · have hq2 : q.2 ≠ p.2 := by
        intro hcon
        have h1 : q.2 ∈ rest.map Prod.snd := List.mem_map.mpr ⟨p, hrest, hcon.symm⟩
        rw [List.map_cons] at hnodup
        exact (List.nodup_cons.mp hnodup).1 h1
      rw [List.find?_cons_of_neg _ (by simpa using hq2)]
      exact ih p (List.nodup_cons.mp (by rwa [List.map_cons] at hnodup)).2 hrest

/-- C9: after `ScoreMatrix.precompute(S)` on a fresh matrix, every cell of
a computed column agrees with the scorer - for each pair of a word and its
column index in the slice `S` of the common words, and each row `r` over
`all_words`, the stored value is `Scorer.score_word(common_word, all_words[r])`
- and calling `precompute` again with the same subset leaves the matrix
unchanged. -/
theorem c9_precompute_cells_and_idempotent (size : Nat)
    (allWords commonWords : List Word) (S : WordSeries)
    (hlen : S.words.length = S.index.length)
    (hnodup : S.index.Nodup)
    (hsub : ∀ p ∈ S.words.zip S.index, commonWords[p.2]? = some p.1)
    (hne : S.index ≠ []) :
    (∀ p ∈ S.words.zip S.index, ∀ r < allWords.length,
      ((((ScoreMatrix.init size allWords commonWords).precompute (some S)).storage.getD
        r []).getD p.2 (-1)) = Scorer.scoreWord size p.1 (allWords.getD r default)) ∧
    ((ScoreMatrix.init size allWords commonWords).precompute (some S)).precompute (some S) =
      (ScoreMatrix.init size allWords commonWords).precompute (some S) := by
  have hsnd : (S.words.zip S.index).map Prod.snd = S.index :=
    List.map_snd_zip _ _ (le_of_eq hlen.symm)
  have hlenpos : 0 < S.index.length := List.length_pos.mpr hne
  have hguard1 : ((ScoreMatrix.init size allWords commonWords).isFullyInitialised ||
      S.index.all (fun c =>
        (ScoreMatrix.init size allWords commonWords).isCalculated.getD c false)) = false := by
    simp only [ScoreMatrix.init, Bool.false_or]
    rw [List.all_eq_false]
    obtain ⟨c0, hc0⟩ := List.exists_mem_of_ne_nil S.index hne
    exact ⟨c0, hc0, by rw [getD_replicate_false]; exact Bool.false_ne_true⟩
  have hm1 : (ScoreMatrix.init size allWords commonWords).precompute (some S) =
      { ScoreMatrix.init size allWords commonWords with
        storage := (List.range allWords.length).map (fun r =>
          (List.range commonWords.length).map (fun c =>
            match (S.words.zip S.index).find? (fun p => p.2 == c) with
            | some p => Scorer.scoreWord size p.1 (allWords.getD r default)
            | none => (((ScoreMatrix.init size allWords commonWords).storage.getD
                r []).getD c (-1))))
        isCalculated := (List.range commonWords.length).map (fun c =>
          if c ∈ S.index then true
          else (ScoreMatrix.init size allWords commonWords).isCalculated.getD c false)
        isFullyInitialised := ((List.range commonWords.length).map (fun c =>
          if c ∈ S.index then true
          else (ScoreMatrix.init size allWords commonWords).isCalculated.getD c
            false)).all id } := by
    rw [ScoreMatrix.precompute]
    simp only [if_pos hlenpos, hguard1, Bool.false_eq_true, if_false]
    rfl
  have hcol : ∀ p ∈ S.words.zip S.index, p.2 < commonWords.length := by
    intro p hp
    have := hsub p hp
    exact (List.getElem?_eq_some.mp this).1
  constructor
  · intro p hp r hr
    rw [hm1]
    simp only
    rw [getD_range_map _ _ _ _ hr, getD_range_map _ _ _ _ (hcol p hp)]
    have hzipnodup : ((S.words.zip S.index).map Prod.snd).Nodup := by
      rw [hsnd]; exact hnodup
    rw [find?_snd_self (S.words.zip S.index) p hzipnodup hp]
  · have hcalc : S.index.all (fun c =>
        (((ScoreMatrix.init size allWords commonWords).precompute (some S)).isCalculated.getD
          c false)) = true := by
      rw [List.all_eq_true]
      intro c hc
      have hczip : c ∈ (S.words.zip S.index).map Prod.snd := by rw [hsnd]; exact hc
      obtain ⟨p, hp, hpc⟩ := List.mem_map.mp hczip
      rw [hm1]
      simp only
      rw [getD_range_map _ _ _ _ (hpc ▸ hcol p hp)]
      rw [if_pos hc]
    rw [ScoreMatrix.precompute]
    simp only [if_pos hlenpos, hcalc, Bool.or_true, if_true]


/-- Witness for C9: a one-column slice of a two-word dictionary; the
second precompute call with the same subset leaves the matrix unchanged. -/
theorem c9_witness :
    ((WordSeries.mk [Word.ofString "CD"] [1]).words.length =
      (WordSeries.mk [Word.ofString "CD"] [1]).index.length) ∧
    ((WordSeries.mk [Word.ofString "CD"] [1]).index.Nodup) ∧
    (((ScoreMatrix.init 2 [Word.ofString "AB", Word.ofString "CD"]
        [Word.ofString "AB", Word.ofString "CD"]).precompute
          (some (WordSeries.mk [Word.ofString "CD"] [1]))).precompute
            (some (WordSeries.mk [Word.ofString "CD"] [1])) =
      (ScoreMatrix.init 2 [Word.ofString "AB", Word.ofString "CD"]
        [Word.ofString "AB", Word.ofString "CD"]).precompute
          (some (WordSeries.mk [Word.ofString "CD"] [1]))) :=
  ⟨by decide, by decide,
    (c9_precompute_cells_and_idempotent 2 [Word.ofString "AB", Word.ofString "CD"]
      [Word.ofString "AB", Word.ofString "CD"] (WordSeries.mk [Word.ofString "CD"] [1])
      (by decide) (by decide) (by decide) (by decide)).2⟩


theorem Word.eq_of_data_eq {a b : Word} (h : a.value.data = b.value.data) : a = b := by
  rcases a with ⟨⟨da⟩⟩
  rcases b with ⟨⟨db⟩⟩
  cases h
  rfl

theorem getD_of_lt (a : List Word) (i : Nat) (h : i < a.length) :
    a.getD i default = a[i] := by
  rw [List.getD_eq_getElem?_getD, List.getElem?_eq_getElem h]
  rfl

theorem sorted_getD_le (a : List Word) (hs : List.Sorted Word.le a) (i j : Nat)
    (hij : i ≤ j) (hj : j < a.length) :
    (a.getD i default).value.data ≤ (a.getD j default).value.data := by
  have hi : i < a.length := lt_of_le_of_lt hij hj
  rw [getD_of_lt a i hi, getD_of_lt a j hj]
  rcases eq_or_lt_of_le hij with rfl | hlt
  · exact le_refl _
  · have h := hs.rel_get_of_lt (a := ⟨i, hi⟩) (b := ⟨j, hj⟩) hlt
    simp only [List.get_eq_getElem] at h
    exact h

theorem bisectLeftAux_spec (a : List Word) (x : Word) (hs : List.Sorted Word.le a) :
    ∀ (fuel lo hi : Nat), hi - lo ≤ fuel → lo ≤ hi → hi ≤ a.length →
      (∀ i, i < lo → (a.getD i default).value.data < x.value.data) →
      (∀ i, hi ≤ i → i < a.length → ¬ (a.getD i default).value.data < x.value.data) →
      lo ≤ bisectLeftAux a x fuel lo hi ∧ bisectLeftAux a x fuel lo hi ≤ hi ∧
      (∀ i, i < bisectLeftAux a x fuel lo hi →
        (a.getD i default).value.data < x.value.data) ∧
      (∀ i, bisectLeftAux a x fuel lo hi ≤ i → i < a.length →
        ¬ (a.getD i default).value.data < x.value.data) := by
  intro fuel
  induction fuel with
  | zero =>
    intro lo hi hfuel hlohi hhi hlow hhigh
    have heq : lo = hi := by omega
    subst heq
    simp only [bisectLeftAux]
    exact ⟨le_refl _, le_refl _, hlow, hhigh⟩
  | succ fuel ih =>
    intro lo hi hfuel hlohi hhi hlow hhigh
    simp only [bisectLeftAux]
    by_cases hlt : lo < hi
    · rw [if_pos hlt]
      by_cases hcmp : Word.ltB (a.getD ((lo + hi) / 2) default) x = true
      · rw [if_pos hcmp]
        have hmidltx : (a.getD ((lo + hi) / 2) default).value.data < x.value.data := by
          rw [Word.ltB, decide_eq_true_iff] at hcmp
          exact hcmp
        have hmono : ∀ i, i < (lo + hi) / 2 + 1 →
            (a.getD i default).value.data < x.value.data := by
          intro i hi1
          have hle : (a.getD i default).value.data ≤
              (a.getD ((lo + hi) / 2) default).value.data :=
            sorted_getD_le a hs i ((lo + hi) / 2) (by omega) (by omega)
          exact lt_of_le_of_lt hle hmidltx
        obtain ⟨h1, h2, h3, h4⟩ := ih ((lo + hi) / 2 + 1) hi (by omega) (by omega) hhi
          hmono hhigh
        exact ⟨le_trans (by omega) h1, h2, h3, h4⟩
      · rw [if_neg hcmp]
        have hxle : ¬ (a.getD ((lo + hi) / 2) default).value.data < x.value.data := by
          rw [Word.ltB, decide_eq_true_iff] at hcmp
          exact hcmp
        have hmono : ∀ i, (lo + hi) / 2 ≤ i → i < a.length →
            ¬ (a.getD i default).value.data < x.value.data := by
          intro i hi1 hi2 hcon
          have hle : (a.getD ((lo + hi) / 2) default).value.data ≤
              (a.getD i default).value.data :=
            sorted_getD_le a hs ((lo + hi) / 2) i hi1 hi2
          exact hxle (lt_of_le_of_lt hle hcon)
        obtain ⟨h1, h2, h3, h4⟩ := ih lo ((lo + hi) / 2) (by omega) (by omega) (by omega)
          hlow hmono
        exact ⟨h1, le_trans h2 (by omega), h3, h4⟩
    · rw [if_neg hlt]
      have heq : lo = hi := by omega
      subst heq
      exact ⟨le_refl _, le_refl _, hlow, hhigh⟩

/-- C10: `find_index` on a sorted series returns the position of the
uppercased probe word when the word is present, and `-1` when it is
absent; the membership test `__contains__` holds exactly when the
returned index is non-negative (and the lookup is total: absence yields
`-1`, not an error). -/
theorem c10_find_index_spec (seriesWords : List Word) (value : String)
    (hs : List.Sorted Word.le seriesWords) :
    (Word.ofString value ∈ seriesWords →
      0 ≤ WordSeries.findIndex seriesWords value ∧
      seriesWords.getD (WordSeries.findIndex seriesWords value).toNat default =
        Word.ofString value) ∧
    (Word.ofString value ∉ seriesWords → WordSeries.findIndex seriesWords value = -1) ∧
    (WordSeries.containsWord seriesWords value = true ↔
      0 ≤ WordSeries.findIndex seriesWords value) := by
  obtain ⟨hple, hphi, hbelow, habove⟩ := bisectLeftAux_spec seriesWords
    (Word.ofString value) hs (seriesWords.length - 0) 0 seriesWords.length
    (le_refl _) (Nat.zero_le _) (le_refl _)
    (fun i hi => absurd hi (Nat.not_lt_zero i))
    (fun i hi1 hi2 => absurd hi2 (Nat.not_lt.mpr hi1))
  have hbl : bisectLeft seriesWords (Word.ofString value) 0 seriesWords.length =
      bisectLeftAux seriesWords (Word.ofString value) (seriesWords.length - 0) 0
        seriesWords.length := rfl
  rw [← hbl] at hple hphi hbelow habove
  refine ⟨?_, ?_, ?_⟩
  · intro hmem
    obtain ⟨j, hj, hja⟩ := List.mem_iff_getElem.mp hmem
    have hja2 : seriesWords.getD j default = Word.ofString value := by
      rw [getD_of_lt _ _ hj]
      exact hja
    have hposle : bisectLeft seriesWords (Word.ofString value) 0 seriesWords.length ≤ j := by
      by_contra hcon
      have h1 := hbelow j (by omega)
      rw [hja2] at h1
      exact lt_irrefl _ h1
    have hposlt : bisectLeft seriesWords (Word.ofString value) 0 seriesWords.length <
        seriesWords.length := lt_of_le_of_lt hposle hj
    have h2 : ¬ (seriesWords.getD (bisectLeft seriesWords (Word.ofString value) 0
        seriesWords.length) default).value.data < (Word.ofString value).value.data :=
      habove _ (le_refl _) hposlt
    have h3 : (seriesWords.getD (bisectLeft seriesWords (Word.ofString value) 0
        seriesWords.length) default).value.data ≤ (Word.ofString value).value.data := by
      have := sorted_getD_le seriesWords hs _ j hposle hj
      rw [hja2] at this
      exact this
    have heqword : seriesWords.getD (bisectLeft seriesWords (Word.ofString value) 0
        seriesWords.length) default = Word.ofString value :=
      Word.eq_of_data_eq (le_antisymm h3 (not_lt.mp h2))
    rw [WordSeries.findIndex]
    simp only [if_pos (And.intro hposlt heqword)]
    refine ⟨Int.natCast_nonneg _, ?_⟩
    rw [Int.toNat_natCast]
    exact heqword
  · intro hmem
    rw [WordSeries.findIndex]
    by_cases hcond : bisectLeft seriesWords (Word.ofString value) 0 seriesWords.length <
        seriesWords.length ∧ seriesWords.getD (bisectLeft seriesWords (Word.ofString value)
          0 seriesWords.length) default = Word.ofString value
    · exfalso
      apply hmem
      rw [← hcond.2, getD_of_lt _ _ hcond.1]
      exact List.getElem_mem hcond.1
    · rw [if_neg hcond]
  · rw [WordSeries.containsWord, decide_eq_true_iff]


/-- Witness for C10 on a concrete sorted three-word series: the
lower-case probe "bread" is found at its position. -/
theorem c10_witness :
    List.Sorted Word.le
      [Word.ofString "APPLE", Word.ofString "BREAD", Word.ofString "CRUMB"] ∧
    Word.ofString "bread" ∈
      [Word.ofString "APPLE", Word.ofString "BREAD", Word.ofString "CRUMB"] ∧
    (0 ≤ WordSeries.findIndex
        [Word.ofString "APPLE", Word.ofString "BREAD", Word.ofString "CRUMB"] "bread" ∧
      [Word.ofString "APPLE", Word.ofString "BREAD", Word.ofString "CRUMB"].getD
        (WordSeries.findIndex
          [Word.ofString "APPLE", Word.ofString "BREAD", Word.ofString "CRUMB"]
          "bread").toNat default = Word.ofString "bread") :=
  ⟨by decide, by decide,
    (c10_find_index_spec
      [Word.ofString "APPLE", Word.ofString "BREAD", Word.ofString "CRUMB"] "bread"
      (by decide)).1 (by decide)⟩

end Doddle
